import Mathlib

/-!
# Verification of the content-indexing subsystem of the Database-Free-Website repository

This file gives a shallow embedding of the content indexer (`content-indexer.js`),
the markdown front-matter handling (`markdown-handler.js`) and the admin mutation
handlers (`server.js`) of the repository, and proves or refutes the frozen claims
about them.

Modelling conventions:
* JavaScript numbers that the code only ever uses as integers (front-matter
  `order`, `Date` timestamps in milliseconds) are modelled as `Int`.
* A JS `Date` object is modelled by its millisecond timestamp.
* Front-matter values (the output of gray-matter's YAML parse) are modelled by
  the inductive `MetaValue` covering the scalar shapes the code distinguishes
  (string, number, boolean, Date).
* JS `Map` and plain objects are modelled as association lists preserving JS
  insertion-order semantics: setting an existing key updates it in place,
  setting a fresh key appends.
* External JS primitives with no bearing on the claims (string-to-date parsing
  by `new Date(string)`, string-to-number coercion, `toISOString`) are passed
  in as explicit function parameters (`JsPrims`) and universally quantified.
-/

/-- A scalar front-matter value as produced by gray-matter's YAML parser. -/
inductive MetaValue where
  | str (s : String)
  | num (n : Int)
  | bool (b : Bool)
  | date (d : Int)
deriving DecidableEq, Repr

/-- A parsed front-matter mapping: ordered string-keyed fields. -/
abbrev Metadata := List (String × MetaValue)

/-- JS truthiness of a front-matter value: empty strings, 0 and `false` are falsy;
a `Date` object is always truthy. -/
def jsTruthy : MetaValue → Bool
  | .str s => decide (s ≠ "")
  | .num n => decide (n ≠ 0)
  | .bool b => b
  | .date _ => true

/-- External JS primitives, passed in as parameters of the embedding. -/
structure JsPrims where
  dateParse : String → Int
  numParse : String → Int
  isoDate : Int → String

/-- `new Date(v)` for a front-matter value `v`, as a millisecond timestamp:
a `Date` is copied, a number is taken as milliseconds, a boolean is coerced
to 0/1, a string goes through date parsing. -/
def jsDateVal (js : JsPrims) : MetaValue → Int
  | .str s => js.dateParse s
  | .num n => n
  | .bool b => if b then 1 else 0
  | .date d => d

/-- Numeric coercion of a front-matter value (as the sort comparator's
subtraction applies it). -/
def jsIntVal (js : JsPrims) : MetaValue → Int
  | .str s => js.numParse s
  | .num n => n
  | .bool b => if b then 1 else 0
  | .date d => d

/-! ## Association-list model of JS `Map` / plain objects -/

/-- Lookup: first entry with the given key (JS `Map.get` / property read). -/
def jsGetKey {α : Type} (m : List (String × α)) (k : String) : Option α :=
  (m.find? fun kv => decide (kv.1 = k)).map (·.2)

/-- Key-membership test (JS `Map.has` / `in`). -/
def jsHasKey {α : Type} (m : List (String × α)) (k : String) : Bool :=
  (m.find? fun kv => decide (kv.1 = k)).isSome

/-- JS assignment `m[k] = v` / `Map.set`: update in place when the key exists
(keeping its position), append otherwise. -/
def jsSetKey {α : Type} (m : List (String × α)) (k : String) (v : α) : List (String × α) :=
  if m.any fun kv => decide (kv.1 = k) then
    m.map fun kv => if kv.1 = k then (k, v) else kv
  else
    m ++ [(k, v)]

/-- JS `Map.delete`: remove the entry with the given key. -/
def jsDelKey {α : Type} (m : List (String × α)) (k : String) : List (String × α) :=
  m.filter fun kv => !decide (kv.1 = k)

/-! ## Slug generation (`ContentIndexer._generateSlug`)

The source strips the anchored date-prefix regex (four digits, hyphen, two
digits, hyphen, two digits, hyphen), then lowercases, then applies
`replace(/[^a-z0-9]+/g, '-')` and finally `replace(/^-+|-+$/g, '')`.
-/

/-- Membership in the character class `[a-z0-9]`. -/
def isLowerAlnumChar (c : Char) : Bool :=
  decide ((97 ≤ c.toNat ∧ c.toNat ≤ 122) ∨ (48 ≤ c.toNat ∧ c.toNat ≤ 57))

/-- Membership in the regex class `\d`, i.e. `[0-9]`. -/
def isDigitChar (c : Char) : Bool :=
  decide (48 ≤ c.toNat ∧ c.toNat ≤ 57)

/-- ASCII case mapping of `String.prototype.toLowerCase`, per character. -/
def toLowerAscii (c : Char) : Char :=
  if 65 ≤ c.toNat ∧ c.toNat ≤ 90 then Char.ofNat (c.toNat + 32) else c

/-- Whether the string starts with the anchored regex `^\d{4}-\d{2}-\d{2}-`. -/
def hasDatePrefix : List Char → Bool
  | y1 :: y2 :: y3 :: y4 :: h1 :: m1 :: m2 :: h2 :: d1 :: d2 :: h3 :: _ =>
    isDigitChar y1 && isDigitChar y2 && isDigitChar y3 && isDigitChar y4 &&
    decide (h1 = '-') && isDigitChar m1 && isDigitChar m2 && decide (h2 = '-') &&
    isDigitChar d1 && isDigitChar d2 && decide (h3 = '-')
  | _ => false

/-- Strip the 11-character date prefix when present: the anchored, non-global
regex replacement removes at most one occurrence, at the start only. -/
def stripDatePrefix (s : List Char) : List Char :=
  if hasDatePrefix s then s.drop 11 else s

/-- `replace(/[^a-z0-9]+/g, '-')`: each maximal run of characters outside
`[a-z0-9]` becomes a single hyphen. The flag records whether the previous
character belonged to a run already replaced. -/
def collapseGo : Bool → List Char → List Char
  | _, [] => []
  | prevHyphen, c :: rest =>
    if isLowerAlnumChar c then c :: collapseGo false rest
    else if prevHyphen then collapseGo true rest
    else '-' :: collapseGo true rest

/-- The `-+$` half of `replace(/^-+|-+$/g, '')`: drop the maximal trailing
run of hyphens. -/
def dropTrailingHyphens : List Char → List Char
  | [] => []
  | c :: rest =>
    match dropTrailingHyphens rest with
    | [] => if c = '-' then [] else [c]
    | r => c :: r

/-- `replace(/^-+|-+$/g, '')`: remove the leading and the trailing hyphen run. -/
def trimEdgeHyphens (s : List Char) : List Char :=
  dropTrailingHyphens (s.dropWhile fun c => decide (c = '-'))

/-- `_generateSlug` on character lists. -/
def slugChars (s : List Char) : List Char :=
  trimEdgeHyphens (collapseGo false ((stripDatePrefix s).map toLowerAscii))

/-- `ContentIndexer._generateSlug(filename)`. -/
def generateSlug (filename : String) : String :=
  ⟨slugChars filename.data⟩

/-- `path.basename(p, '.md')` on POSIX paths: last path component, with the
`.md` extension stripped when it is a proper suffix (Node keeps the name when
the whole basename equals the extension). -/
def basenameNoMd (p : String) : String :=
  let comp := (p.data.reverse.takeWhile fun c => decide (c ≠ '/')).reverse
  let rcomp := comp.reverse
  if rcomp.take 3 = ['d', 'm', '.'] ∧ comp ≠ ['.', 'm', 'd'] then
    ⟨(rcomp.drop 3).reverse⟩
  else ⟨comp⟩

example : generateSlug "2025-11-13-My Post!" = "my-post" := by decide
example : generateSlug (generateSlug "2020-01-01-2021-02-03-x") = "x" := by decide
example : basenameNoMd "/content/pages/A POST.md" = "A POST" := by decide

/-! ## The content record and the index (`content-indexer.js`) -/

/-- The content item built by `ContentIndexer._indexFile` for one markdown
file. `type` and `title` keep the loosely-typed front-matter value the code
stores; `date` is the millisecond timestamp of the stored `Date`; `order` is
kept numerically since the code only consumes it through the numeric sort
comparator. -/
structure ContentItem where
  slug : String
  type : MetaValue
  title : MetaValue
  date : Int
  order : Int
  published : Bool
  filePath : String
  metadata : Metadata
deriving DecidableEq, Repr

/-- The in-memory index: a JS `Map` from slug to content item, modelled as an
insertion-ordered association list. -/
abbrev ContentIndex := List (String × ContentItem)

/-- `this.index.values()` in insertion order. -/
def indexValues (idx : ContentIndex) : List ContentItem :=
  idx.map (·.2)

/-- The result of gray-matter on one file: front matter plus body. -/
structure ParsedDoc where
  metadata : Metadata
  content : String
deriving DecidableEq, Repr

/-- The content-type fallback chain `parsed.metadata.type || type || 'page'`
(`dirType = ""` models a `null` directory hint). -/
def contentTypeOf (m : Metadata) (dirType : String) : MetaValue :=
  let fallback : MetaValue := if dirType = "" then .str "page" else .str dirType
  match jsGetKey m "type" with
  | some v => if jsTruthy v then v else fallback
  | none => fallback

/-- The record construction at the heart of `_indexFile`: slug from the
filename, type/title/date/order/published from the front matter with the
code's truthiness fallbacks, `published` true unless the value is exactly
`false`, and `now` the file-observation time used by `new Date()`. -/
def mkItem (js : JsPrims) (d : ParsedDoc) (filePath : String) (dirType : String)
    (now : Int) : ContentItem :=
  let filename := basenameNoMd filePath
  { slug := generateSlug filename
    type := contentTypeOf d.metadata dirType
    title :=
      match jsGetKey d.metadata "title" with
      | some v => if jsTruthy v then v else .str filename
      | none => .str filename
    date :=
      match jsGetKey d.metadata "date" with
      | some v => if jsTruthy v then jsDateVal js v else now
      | none => now
    order :=
      match jsGetKey d.metadata "order" with
      | some v => if jsTruthy v then jsIntVal js v else 0
      | none => 0
    published :=
      match jsGetKey d.metadata "published" with
      | some (.bool false) => false
      | _ => true
    filePath := filePath
    metadata := d.metadata }

/-- `ContentIndexer.getBySlug`: plain `Map.get`, `null` for a miss. -/
def getBySlug (idx : ContentIndex) (slug : String) : Option ContentItem :=
  jsGetKey idx slug

/-- The sort comparator of `getBlogEntries` and `getPages` as a total
preorder: ascending `order`, ties broken by `date` descending. -/
def entryLE (a b : ContentItem) : Prop :=
  a.order < b.order ∨ (a.order = b.order ∧ b.date ≤ a.date)

instance : DecidableRel entryLE := fun a b => by
  unfold entryLE; infer_instance

instance : IsTotal ContentItem entryLE :=
  ⟨fun a b => by unfold entryLE; omega⟩

instance : IsTrans ContentItem entryLE :=
  ⟨fun a b c hab hbc => by unfold entryLE at *; omega⟩

/-- `ContentIndexer.getBlogEntries`: published blog items, sorted by the
comparator. The JS engine's sort is stable on a consistent comparator, hence
extensionally insertion sort over `entryLE`. -/
def getBlogEntries (idx : ContentIndex) : List ContentItem :=
  List.insertionSort entryLE
    ((indexValues idx).filter fun item =>
      decide (item.type = .str "blog") && item.published)

/-- `ContentIndexer.getPages`: published page items, same sort. -/
def getPages (idx : ContentIndex) : List ContentItem :=
  List.insertionSort entryLE
    ((indexValues idx).filter fun item =>
      decide (item.type = .str "page") && item.published)

/-- `ContentIndexer.removeFromIndex(filePath)`: derive the slug from the
path's basename and delete that map entry when present; always total because
the body is wrapped in try/catch. -/
def removeFromIndex (idx : ContentIndex) (filePath : String) : ContentIndex :=
  let slug := generateSlug (basenameNoMd filePath)
  if jsHasKey idx slug then jsDelKey idx slug else idx

/-! ## Directory scan (`initialize` / `_scanDirectory` / `_indexFile`) -/

/-- A markdown file on disk, abstracted to its name and raw text. -/
structure MdFile where
  name : String
  raw : String
deriving DecidableEq, Repr

/-- `_indexFile`: parse (gray-matter `gm`, which may fail), build the record,
store it under its slug. The try/catch makes a parse failure skip the file,
leaving the index unchanged. -/
def indexFileWith (gm : String → Except String ParsedDoc) (js : JsPrims)
    (idx : ContentIndex) (filePath : String) (raw : String) (dirType : String)
    (now : Int) : ContentIndex :=
  match gm raw with
  | .error _ => idx
  | .ok d =>
    let item := mkItem js d filePath dirType now
    jsSetKey idx item.slug item

/-- The `file.endsWith('.md')` filter of `_scanDirectory`. -/
def endsWithMd (name : String) : Bool :=
  decide (name.data.reverse.take 3 = ['d', 'm', '.'])

/-- `_scanDirectory`: index every `.md` file of the listing in order. -/
def scanDirectory (gm : String → Except String ParsedDoc) (js : JsPrims)
    (dirPath : String) (dirType : String) (now : Int) (idx : ContentIndex)
    (files : List MdFile) : ContentIndex :=
  files.foldl
    (fun acc f =>
      if endsWithMd f.name then
        indexFileWith gm js acc (dirPath ++ "/" ++ f.name) f.raw dirType now
      else acc)
    idx

/-- `initialize`: scan the blog directory, then the pages directory, starting
from the empty index. -/
def initializeIndex (gm : String → Except String ParsedDoc) (js : JsPrims)
    (contentPath : String) (now : Int) (blogFiles pagesFiles : List MdFile) :
    ContentIndex :=
  scanDirectory gm js (contentPath ++ "/pages") "page" now
    (scanDirectory gm js (contentPath ++ "/blog") "blog" now [] blogFiles)
    pagesFiles

/-! ## Admin mutation handlers (`server.js`)

Each handler is modelled as the ordered trace of externally visible effects it
performs; validation and security checks that end in an error response are
modelled by the corresponding boolean outcome.
-/

/-- An externally visible effect of an admin request handler. -/
inductive Effect where
  | writeFile (path : String)
  | unlinkFile (path : String)
  | indexUpsert (path : String)
  | indexRemove (path : String)
  | respond
deriving DecidableEq, Repr

/-- Whether a trace contains any direct call into the content index. -/
def hasIndexEffect (es : List Effect) : Bool :=
  es.any fun e =>
    match e with
    | .indexUpsert _ => true
    | .indexRemove _ => true
    | _ => false

/-- `handler_adminCreatePost`: on validation failure, bad path, existing file
or invalid markdown it renders an error page (responds); otherwise it writes
the file, logs and redirects. No index call appears anywhere in the handler;
its comment defers to the file watcher. -/
def adminCreatePostTrace (inputValid pathOk fileExists contentValid : Bool)
    (filePath : String) : List Effect :=
  if !inputValid then [.respond]
  else if !pathOk then [.respond]
  else if fileExists then [.respond]
  else if !contentValid then [.respond]
  else [.writeFile filePath, .respond]

/-- `handler_adminEditPost`: not-found, bad path, missing fields, bad type or
invalid markdown respond with an error; otherwise the file is rewritten in
place and the handler redirects, again without touching the index. -/
def adminEditPostTrace (found pathOk inputValid contentValid : Bool)
    (filePath : String) : List Effect :=
  if !found then [.respond]
  else if !pathOk then [.respond]
  else if !inputValid then [.respond]
  else if !contentValid then [.respond]
  else [.writeFile filePath, .respond]

/-- `handler_adminDelete`: not-found or bad path respond with an error;
otherwise the file is unlinked and a success JSON is returned, with the index
update left to the watcher. -/
def adminDeleteTrace (found pathOk : Bool) (filePath : String) : List Effect :=
  if !found then [.respond]
  else if !pathOk then [.respond]
  else [.unlinkFile filePath, .respond]

/-- `handler_adminReorder`: each item found and inside the content root gets
its file rewritten; the handler then sends one response. No index call. -/
def adminReorderTrace (items : List (Bool × Bool × String)) : List Effect :=
  (items.filterMap fun it =>
    if it.1 && it.2.1 then some (Effect.writeFile it.2.2) else none) ++ [.respond]

/-! ## Front-matter re-serialization in `handler_adminReorder` -/

/-- `value.replace` of every double quote by a backslash-quote pair. -/
def escapeQuotes (s : String) : String :=
  ⟨s.data.flatMap fun c => if c = '"' then ['\\', '"'] else [c]⟩

/-- One `key: value` line of the rebuilt front matter: strings are quoted and
re-escaped, `Date` values reduced to their date-only ISO form, everything else
template-interpolated. -/
def renderLine (js : JsPrims) (kv : String × MetaValue) : String :=
  match kv.2 with
  | .str s => kv.1 ++ ": \"" ++ escapeQuotes s ++ "\""
  | .date d => kv.1 ++ ": " ++ js.isoDate d
  | .num n => kv.1 ++ ": " ++ toString n
  | .bool b => kv.1 ++ ": " ++ (if b then "true" else "false")

/-- The `frontMatterLines` array built by the reorder handler after
`parsed.metadata.order = order`. -/
def reorderFrontMatterLines (js : JsPrims) (m : Metadata) (order : Int) :
    List String :=
  ["---"] ++ (jsSetKey m "order" (.num order)).map (renderLine js) ++ ["---", ""]

/-! ## Helper lemmas about the association-list operations -/

/-- Head-unfolding of `jsGetKey`. -/
theorem jsGetKey_cons {α : Type} (a : String × α) (l : List (String × α))
    (k : String) :
    jsGetKey (a :: l) k = if a.1 = k then some a.2 else jsGetKey l k := by
  unfold jsGetKey
  by_cases h : a.1 = k
  · rw [List.find?_cons_of_pos _ (by simpa using h), if_pos h]
    rfl
  · rw [List.find?_cons_of_neg _ (by simpa using h), if_neg h]

/-- Head-unfolding of `jsDelKey`. -/
theorem jsDelKey_cons {α : Type} (a : String × α) (l : List (String × α))
    (k : String) :
    jsDelKey (a :: l) k = if a.1 = k then jsDelKey l k else a :: jsDelKey l k := by
  unfold jsDelKey
  by_cases h : a.1 = k <;> simp [List.filter_cons, h]

theorem jsGetKey_map_replace_self {α : Type} (m : List (String × α)) (k : String)
    (v : α) (h : (m.any fun kv => decide (kv.1 = k)) = true) :
    jsGetKey (m.map fun kv => if kv.1 = k then (k, v) else kv) k = some v := by
  induction m with
  | nil => simp at h
  | cons a rest ih =>
    simp only [List.any_cons, Bool.or_eq_true, decide_eq_true_eq] at h
    by_cases hk : a.1 = k
    · simp [hk, jsGetKey_cons]
    · have h' := h.resolve_left hk
      simp only [List.map_cons, if_neg hk, jsGetKey_cons]
      exact ih h'

theorem jsGetKey_map_replace_ne {α : Type} (m : List (String × α)) (k k' : String)
    (v : α) (hne : k' ≠ k) :
    jsGetKey (m.map fun kv => if kv.1 = k then (k, v) else kv) k' = jsGetKey m k' := by
  induction m with
  | nil => rfl
  | cons a rest ih =>
    by_cases hk : a.1 = k
    · simp only [List.map_cons, if_pos hk, jsGetKey_cons]
      rw [if_neg (fun h => hne h.symm), if_neg (fun h => hne (hk ▸ h).symm)]
      exact ih
    · simp only [List.map_cons, if_neg hk, jsGetKey_cons]
      by_cases hk' : a.1 = k'
      · rw [if_pos hk', if_pos hk']
      · rw [if_neg hk', if_neg hk']
        exact ih

theorem jsGetKey_append_single_self {α : Type} (m : List (String × α)) (k : String)
    (v : α) (h : (m.any fun kv => decide (kv.1 = k)) = false) :
    jsGetKey (m ++ [(k, v)]) k = some v := by
  induction m with
  | nil => simp [jsGetKey_cons]
  | cons a rest ih =>
    rw [List.any_cons] at h
    have h1 : a.1 ≠ k := by
      intro hh
      simp [hh] at h
    have h2 : (rest.any fun kv => decide (kv.1 = k)) = false :=
      (Bool.or_eq_false_iff.mp h).2
    rw [List.cons_append, jsGetKey_cons, if_neg h1]
    exact ih h2

theorem jsGetKey_append_single_ne {α : Type} (m : List (String × α)) (k k' : String)
    (v : α) (hne : k' ≠ k) :
    jsGetKey (m ++ [(k, v)]) k' = jsGetKey m k' := by
  induction m with
  | nil =>
    simp only [List.nil_append, jsGetKey_cons]
    rw [if_neg (fun h => hne h.symm)]
  | cons a rest ih =>
    rw [List.cons_append, jsGetKey_cons, jsGetKey_cons]
    by_cases hk' : a.1 = k'
    · rw [if_pos hk', if_pos hk']
    · rw [if_neg hk', if_neg hk']
      exact ih

/-- Setting a key makes it readable back. -/
theorem jsGetKey_setKey_self {α : Type} (m : List (String × α)) (k : String)
    (v : α) : jsGetKey (jsSetKey m k v) k = some v := by
  unfold jsSetKey
  by_cases h : (m.any fun kv => decide (kv.1 = k)) = true
  · rw [if_pos h]; exact jsGetKey_map_replace_self m k v h
  · rw [if_neg h]
    exact jsGetKey_append_single_self m k v (Bool.eq_false_iff.mpr h)

/-- Setting a key leaves every other key unchanged. -/
theorem jsGetKey_setKey_ne {α : Type} (m : List (String × α)) (k k' : String)
    (v : α) (hne : k' ≠ k) : jsGetKey (jsSetKey m k v) k' = jsGetKey m k' := by
  unfold jsSetKey
  by_cases h : (m.any fun kv => decide (kv.1 = k)) = true
  · rw [if_pos h]; exact jsGetKey_map_replace_ne m k k' v hne
  · rw [if_neg h]; exact jsGetKey_append_single_ne m k k' v hne

/-- Deleting a key removes it. -/
theorem jsGetKey_delKey_self {α : Type} (m : List (String × α)) (k : String) :
    jsGetKey (jsDelKey m k) k = none := by
  induction m with
  | nil => rfl
  | cons a rest ih =>
    rw [jsDelKey_cons]
    by_cases hk : a.1 = k
    · rw [if_pos hk]; exact ih
    · rw [if_neg hk, jsGetKey_cons, if_neg hk]; exact ih

/-- Deleting a key leaves every other key unchanged. -/
theorem jsGetKey_delKey_ne {α : Type} (m : List (String × α)) (k k' : String)
    (hne : k' ≠ k) : jsGetKey (jsDelKey m k) k' = jsGetKey m k' := by
  induction m with
  | nil => rfl
  | cons a rest ih =>
    rw [jsDelKey_cons]
    by_cases hk : a.1 = k
    · rw [if_pos hk, jsGetKey_cons, if_neg (fun h => hne ((hk ▸ h : k = k')).symm)]
      exact ih
    · rw [if_neg hk, jsGetKey_cons, jsGetKey_cons]
      by_cases hk' : a.1 = k'
      · rw [if_pos hk', if_pos hk']
      · rw [if_neg hk', if_neg hk']
        exact ih

/-- `has` is `get` definedness. -/
theorem jsHasKey_eq_isSome {α : Type} (m : List (String × α)) (k : String) :
    jsHasKey m k = (jsGetKey m k).isSome := by
  unfold jsHasKey jsGetKey
  cases m.find? fun kv => decide (kv.1 = k) <;> rfl

/-! ## Structure of slug-generator outputs

`chunkA` characterises the fixed points of the run-collapsing pass: strings of
`[a-z0-9-]` characters in which every hyphen is followed by an alphanumeric
character. `noDouble` (no two adjacent hyphens) and `headNotHyphen` record the
invariants established by collapsing and by trimming.
-/

/-- The character is in `[a-z0-9]` or is a hyphen. -/
def alnumOrHyphen (c : Char) : Prop := isLowerAlnumChar c = true ∨ c = '-'

/-- All characters of the list are in `[a-z0-9-]`. -/
def allAlnumOrHyphen (l : List Char) : Prop := ∀ c ∈ l, alnumOrHyphen c

/-- No two adjacent hyphens. -/
def noDouble : List Char → Bool
  | [] => true
  | [_] => true
  | a :: b :: rest => !(decide (a = '-') && decide (b = '-')) && noDouble (b :: rest)

/-- The first character, if any, is not a hyphen. -/
def headNotHyphen : List Char → Bool
  | [] => true
  | c :: _ => !decide (c = '-')

/-- Fixed points of the collapsing pass started outside a run: every hyphen is
immediately followed by an alphanumeric character, and all characters are in
`[a-z0-9-]`. -/
def chunkA : List Char → Bool
  | [] => true
  | [c] => isLowerAlnumChar c
  | c :: d :: rest =>
    if isLowerAlnumChar c then chunkA (d :: rest)
    else decide (c = '-') && isLowerAlnumChar d && chunkA rest

theorem alnum_ne_hyphen {c : Char} (h : isLowerAlnumChar c = true) : c ≠ '-' := by
  intro h'
  subst h'
  exact absurd h (by decide)

theorem collapseGo_cons (b : Bool) (c : Char) (rest : List Char) :
    collapseGo b (c :: rest) =
      if isLowerAlnumChar c then c :: collapseGo false rest
      else if b then collapseGo true rest
      else '-' :: collapseGo true rest := rfl

theorem alnumOrHyphen_of_not_hyphen {c : Char} (h : alnumOrHyphen c)
    (h' : c ≠ '-') : isLowerAlnumChar c = true :=
  h.resolve_right h'

/-- Every character emitted by the collapsing pass is in `[a-z0-9-]`. -/
theorem collapseGo_all : ∀ (s : List Char) (b : Bool),
    allAlnumOrHyphen (collapseGo b s)
  | [], _ => by intro c hc; simp [collapseGo] at hc
  | c :: rest, b => by
    intro d hd
    unfold collapseGo at hd
    by_cases ha : isLowerAlnumChar c = true
    · rw [if_pos ha] at hd
      rcases List.mem_cons.mp hd with h | h
      · exact Or.inl (h ▸ ha)
      · exact collapseGo_all rest false d h
    · rw [if_neg ha] at hd
      by_cases hb : b = true
      · rw [if_pos hb] at hd
        exact collapseGo_all rest true d hd
      · rw [if_neg hb] at hd
        rcases List.mem_cons.mp hd with h | h
        · exact Or.inr h
        · exact collapseGo_all rest true d h

/-- The collapsing pass never emits two adjacent hyphens, and when started
inside a run its output cannot begin with a hyphen. -/
theorem collapseGo_noDouble : ∀ (s : List Char) (b : Bool),
    noDouble (collapseGo b s) = true ∧
      (b = true → headNotHyphen (collapseGo b s) = true)
  | [], b => by constructor <;> simp [collapseGo, noDouble, headNotHyphen]
  | c :: rest, b => by
    have IHf := collapseGo_noDouble rest false
    have IHt := collapseGo_noDouble rest true
    unfold collapseGo
    by_cases ha : isLowerAlnumChar c = true
    · rw [if_pos ha]
      have hch : c ≠ '-' := alnum_ne_hyphen ha
      constructor
      · cases hF : collapseGo false rest with
        | nil => simp [noDouble]
        | cons d r =>
          rw [hF] at IHf
          simp only [noDouble, Bool.and_eq_true, Bool.not_eq_true',
            Bool.and_eq_false_iff, decide_eq_false_iff_not]
          exact ⟨Or.inl hch, IHf.1⟩
      · intro _
        simp [headNotHyphen, hch]
    · rw [if_neg ha]
      by_cases hb : b = true
      · rw [if_pos hb]
        exact ⟨IHt.1, fun _ => IHt.2 rfl⟩
      · rw [if_neg hb]
        constructor
        · cases hF : collapseGo true rest with
          | nil => simp [noDouble]
          | cons d r =>
            rw [hF] at IHt
            have hd : d ≠ '-' := by
              have := IHt.2 rfl
              simpa [headNotHyphen] using this
            simp only [noDouble, Bool.and_eq_true, Bool.not_eq_true',
              Bool.and_eq_false_iff, decide_eq_false_iff_not]
            exact ⟨Or.inr hd, IHt.1⟩
        · intro hbt
          exact absurd hbt hb

theorem noDouble_tail {c : Char} {t : List Char} (h : noDouble (c :: t) = true) :
    noDouble t = true := by
  cases t with
  | nil => rfl
  | cons d r =>
    simp only [noDouble, Bool.and_eq_true] at h
    exact h.2

/-- Dropping leading hyphens preserves the no-adjacent-hyphens invariant. -/
theorem noDouble_dropWhile (l : List Char) (h : noDouble l = true) :
    noDouble (l.dropWhile fun c => decide (c = '-')) = true := by
  induction l with
  | nil => exact h
  | cons c t ih =>
    by_cases hc : c = '-'
    · rw [List.dropWhile_cons_of_pos (by simpa using hc)]
      exact ih (noDouble_tail h)
    · rwa [List.dropWhile_cons_of_neg (by simpa using hc)]

/-- Dropping leading hyphens preserves character membership. -/
theorem all_dropWhile (l : List Char) (h : allAlnumOrHyphen l) :
    allAlnumOrHyphen (l.dropWhile fun c => decide (c = '-')) := by
  induction l with
  | nil => exact h
  | cons c t ih =>
    by_cases hc : c = '-'
    · rw [List.dropWhile_cons_of_pos (by simpa using hc)]
      exact ih fun d hd => h d (List.mem_cons_of_mem c hd)
    · rwa [List.dropWhile_cons_of_neg (by simpa using hc)]

/-- After dropping leading hyphens the head is not a hyphen. -/
theorem headNotHyphen_dropWhile (l : List Char) :
    headNotHyphen (l.dropWhile fun c => decide (c = '-')) = true := by
  induction l with
  | nil => rfl
  | cons c t ih =>
    by_cases hc : c = '-'
    · rw [List.dropWhile_cons_of_pos (by simpa using hc)]
      exact ih
    · rw [List.dropWhile_cons_of_neg (by simpa using hc)]
      simpa [headNotHyphen] using hc

/-- Dropping trailing hyphens only removes characters. -/
theorem dropTrailingHyphens_subset : ∀ (l : List Char) (c : Char),
    c ∈ dropTrailingHyphens l → c ∈ l
  | [], _, h => by simp [dropTrailingHyphens] at h
  | a :: t, c, h => by
    unfold dropTrailingHyphens at h
    cases hr : dropTrailingHyphens t with
    | nil =>
      rw [hr] at h
      by_cases ha : a = '-'
      · rw [if_pos ha] at h
        simp at h
      · rw [if_neg ha] at h
        simpa using List.mem_cons.mpr (Or.inl (List.mem_singleton.mp h))
    | cons d r =>
      rw [hr] at h
      rcases List.mem_cons.mp h with h' | h'
      · exact h' ▸ List.mem_cons_self a t
      · exact List.mem_cons_of_mem a
          (dropTrailingHyphens_subset t c (by rw [hr]; exact h'))

/-- Dropping trailing hyphens keeps the head when anything remains. -/
theorem dropTrailingHyphens_head (a : Char) (t : List Char) :
    dropTrailingHyphens (a :: t) = [] ∨
      ∃ r, dropTrailingHyphens (a :: t) = a :: r := by
  unfold dropTrailingHyphens
  cases dropTrailingHyphens t with
  | nil =>
    by_cases ha : a = '-'
    · rw [if_pos ha]; exact Or.inl rfl
    · rw [if_neg ha]; exact Or.inr ⟨[], rfl⟩
  | cons d r => exact Or.inr ⟨d :: r, rfl⟩

/-- Core structural lemma: on a `[a-z0-9-]` string without adjacent hyphens,
dropping the trailing hyphens yields a fixed point of the collapsing pass. -/
theorem chunkA_dropTrailingHyphens : ∀ l : List Char, allAlnumOrHyphen l →
    noDouble l = true → chunkA (dropTrailingHyphens l) = true := by
  intro l
  induction l with
  | nil => intro _ _; rfl
  | cons c t ih =>
    intro hAH hND
    have hAHt : allAlnumOrHyphen t := fun d hd => hAH d (List.mem_cons_of_mem c hd)
    have hch : alnumOrHyphen c := hAH c (List.mem_cons_self c t)
    have IH := ih hAHt (noDouble_tail hND)
    unfold dropTrailingHyphens
    cases hr : dropTrailingHyphens t with
    | nil =>
      by_cases hc : c = '-'
      · rw [if_pos hc]; rfl
      · rw [if_neg hc]
        simpa [chunkA] using alnumOrHyphen_of_not_hyphen hch hc
    | cons r0 rs =>
      rw [hr] at IH
      cases t with
      | nil => simp [dropTrailingHyphens] at hr
      | cons d u =>
        have hr0 : r0 = d := by
          rcases dropTrailingHyphens_head d u with h | ⟨r, h⟩
          · rw [h] at hr
            exact absurd hr (by simp)
          · rw [h] at hr
            injection hr with h1 _
            exact h1.symm
        by_cases hc : isLowerAlnumChar c = true
        · -- alphanumeric head: the fixed-point check recurses into the tail
          cases rs with
          | nil => simpa [chunkA, hc] using IH
          | cons e es => simpa [chunkA, hc] using IH
        · -- hyphen head: the next character must be alphanumeric
          have hch' : c = '-' := hch.resolve_left hc
          have hd : d ≠ '-' := by
            subst hch'
            intro hdd
            subst hdd
            simp [noDouble] at hND
          have hdal : isLowerAlnumChar d = true :=
            alnumOrHyphen_of_not_hyphen (hAHt d (List.mem_cons_self d u)) hd
          have hrs : chunkA rs = true := by
            rw [hr0] at IH
            cases rs with
            | nil => rfl
            | cons e es => simpa [chunkA, hdal] using IH
          subst hch'
          subst hr0
          have hni : ¬isLowerAlnumChar '-' = true := by decide
          simp [chunkA, hni, hdal, hrs]

/-- A fixed-point string stays one after removing its first character. -/
theorem chunkA_tail : ∀ (c : Char) (t : List Char), chunkA (c :: t) = true →
    chunkA t = true := by
  intro c t h
  cases t with
  | nil => rfl
  | cons d r =>
    by_cases hc : isLowerAlnumChar c = true
    · simpa [chunkA, hc] using h
    · simp only [chunkA, if_neg hc, Bool.and_eq_true, decide_eq_true_eq] at h
      obtain ⟨⟨_, hd⟩, hr⟩ := h
      cases r with
      | nil => simpa [chunkA] using hd
      | cons e es => simpa [chunkA, hd] using hr

/-- The collapsing pass fixes `chunkA` strings. -/
theorem collapseGo_fix : ∀ l : List Char, chunkA l = true →
    collapseGo false l = l := by
  intro l
  induction l with
  | nil => intro _; rfl
  | cons c t ih =>
    intro h
    have ht := chunkA_tail c t h
    by_cases hc : isLowerAlnumChar c = true
    · rw [collapseGo_cons, if_pos hc, ih ht]
    · cases t with
      | nil => exact absurd (by simpa [chunkA] using h) hc
      | cons d r =>
        simp only [chunkA, if_neg hc, Bool.and_eq_true, decide_eq_true_eq] at h
        obtain ⟨⟨hch, hd⟩, _⟩ := h
        subst hch
        have hstep : collapseGo false ('-' :: d :: r) =
            '-' :: collapseGo true (d :: r) := by
          rw [collapseGo_cons, if_neg hc]
          rfl
        have h2 : collapseGo true (d :: r) = d :: collapseGo false r := by
          rw [collapseGo_cons, if_pos hd]
        have h3 : collapseGo false (d :: r) = d :: collapseGo false r := by
          rw [collapseGo_cons, if_pos hd]
        have h4 : collapseGo false r = r := by
          have h5 := ih ht
          rw [h3] at h5
          injection h5
        rw [hstep, h2, h4]

/-- Dropping leading hyphens fixes strings whose head is not a hyphen. -/
theorem dropWhile_fix (l : List Char) (h : headNotHyphen l = true) :
    (l.dropWhile fun c => decide (c = '-')) = l := by
  cases l with
  | nil => rfl
  | cons c t =>
    have : c ≠ '-' := by simpa [headNotHyphen] using h
    exact List.dropWhile_cons_of_neg (by simpa using this)

/-- Dropping trailing hyphens fixes `chunkA` strings. -/
theorem dropTrailingHyphens_fix : ∀ l : List Char, chunkA l = true →
    dropTrailingHyphens l = l := by
  intro l
  induction l with
  | nil => intro _; rfl
  | cons c t ih =>
    intro h
    have ht := ih (chunkA_tail c t h)
    unfold dropTrailingHyphens
    cases t with
    | nil =>
      have hc : c ≠ '-' := alnum_ne_hyphen (by simpa [chunkA] using h)
      simp [dropTrailingHyphens, hc]
    | cons d r =>
      rw [ht]

/-- Per-character lowercasing fixes `[a-z0-9-]` characters. -/
theorem toLowerAscii_fix {c : Char} (h : alnumOrHyphen c) : toLowerAscii c = c := by
  rcases h with h | h
  · simp only [isLowerAlnumChar, decide_eq_true_eq] at h
    unfold toLowerAscii
    rw [if_neg (by omega)]
  · subst h
    decide

/-- Lowercasing fixes `[a-z0-9-]` strings. -/
theorem map_toLowerAscii_fix (l : List Char) (h : allAlnumOrHyphen l) :
    l.map toLowerAscii = l := by
  induction l with
  | nil => rfl
  | cons c t ih =>
    rw [List.map_cons, toLowerAscii_fix (h c (List.mem_cons_self c t)),
      ih fun d hd => h d (List.mem_cons_of_mem c hd)]

/-- Trimming a collapsed string yields a `chunkA` string with non-hyphen head
over `[a-z0-9-]`. -/
theorem chunk_trim (L : List Char) (hAH : allAlnumOrHyphen L)
    (hND : noDouble L = true) :
    chunkA (trimEdgeHyphens L) = true ∧
      headNotHyphen (trimEdgeHyphens L) = true ∧
      allAlnumOrHyphen (trimEdgeHyphens L) := by
  unfold trimEdgeHyphens
  have hAH' := all_dropWhile L hAH
  have hND' := noDouble_dropWhile L hND
  have hH' := headNotHyphen_dropWhile L
  refine ⟨chunkA_dropTrailingHyphens _ hAH' hND', ?_, ?_⟩
  · cases hc : L.dropWhile fun c => decide (c = '-') with
    | nil => rfl
    | cons a t =>
      rw [hc] at hH'
      rcases dropTrailingHyphens_head a t with h | ⟨r, h⟩
      · rw [h]; rfl
      · rw [h]
        simpa [headNotHyphen] using hH'
  · intro c hcm
    exact hAH' c (dropTrailingHyphens_subset _ c hcm)

/-- Every slug is a `chunkA` string with non-hyphen head, over `[a-z0-9-]`. -/
theorem slugChars_canonical (s : List Char) :
    chunkA (slugChars s) = true ∧ headNotHyphen (slugChars s) = true ∧
      allAlnumOrHyphen (slugChars s) :=
  chunk_trim (collapseGo false ((stripDatePrefix s).map toLowerAscii))
    (collapseGo_all _ _) ((collapseGo_noDouble _ _).1)

/-- One slugging pass fixes any canonical string without a date prefix. -/
theorem slugChars_fix (z : List Char) (hA : chunkA z = true)
    (hH : headNotHyphen z = true) (hAH : allAlnumOrHyphen z)
    (h : hasDatePrefix z = false) : slugChars z = z := by
  unfold slugChars
  rw [show stripDatePrefix z = z from by
    unfold stripDatePrefix; rw [if_neg (by simp [h])]]
  rw [map_toLowerAscii_fix _ hAH, collapseGo_fix _ hA]
  unfold trimEdgeHyphens
  rw [dropWhile_fix _ hH, dropTrailingHyphens_fix _ hA]

/-- Conditional idempotence: a second slugging pass is the identity whenever
the first pass's output does not itself begin with a date prefix. -/
theorem slugChars_idem (s : List Char)
    (h : hasDatePrefix (slugChars s) = false) :
    slugChars (slugChars s) = slugChars s := by
  obtain ⟨hA, hH, hAH⟩ := slugChars_canonical s
  exact slugChars_fix (slugChars s) hA hH hAH h

/-- A successful lookup exhibits a member of the list. -/
theorem jsGetKey_mem {α : Type} (m : List (String × α)) (k : String) (v : α)
    (h : jsGetKey m k = some v) : (k, v) ∈ m := by
  induction m with
  | nil => simp [jsGetKey] at h
  | cons a rest ih =>
    rw [jsGetKey_cons] at h
    by_cases hk : a.1 = k
    · rw [if_pos hk] at h
      have hv : a.2 = v := Option.some.inj h
      have : (k, v) = a := by
        obtain ⟨a1, a2⟩ := a
        simp only at hk hv
        rw [hk, hv]
      rw [this]
      exact List.mem_cons_self a rest
    · rw [if_neg hk] at h
      exact List.mem_cons_of_mem a (ih h)

/-! ## Scan lemmas -/

/-- The index key a scanned file ends up under: slug of the basename of the
joined path. -/
def scanSlug (dirPath : String) (f : MdFile) : String :=
  generateSlug (basenameNoMd (dirPath ++ "/" ++ f.name))

theorem mkItem_slug (js : JsPrims) (d : ParsedDoc) (fp : String) (dt : String)
    (now : Int) : (mkItem js d fp dt now).slug = generateSlug (basenameNoMd fp) :=
  rfl

/-- Whether gray-matter accepts the raw text. -/
def parsesOk (gm : String → Except String ParsedDoc) (raw : String) : Bool :=
  match gm raw with
  | .ok _ => true
  | .error _ => false

/-- A scan over files none of whose successfully-parsed members has slug `s`
leaves key `s` unchanged. -/
theorem scan_untouched (gm : String → Except String ParsedDoc) (js : JsPrims)
    (dp dt : String) (now : Int) :
    ∀ (files : List MdFile) (idx : ContentIndex) (s : String),
      (∀ g ∈ files, parsesOk gm g.raw = true → scanSlug dp g ≠ s) →
      jsGetKey (scanDirectory gm js dp dt now idx files) s = jsGetKey idx s := by
  intro files
  induction files with
  | nil => intro idx s _; rfl
  | cons g gs ih =>
    intro idx s hne
    have hgs : ∀ g' ∈ gs, parsesOk gm g'.raw = true → scanSlug dp g' ≠ s :=
      fun g' hg' => hne g' (List.mem_cons_of_mem g hg')
    have hg := hne g (List.mem_cons_self g gs)
    have step :
        jsGetKey
          (if endsWithMd g.name then
            indexFileWith gm js idx (dp ++ "/" ++ g.name) g.raw dt now
          else idx) s = jsGetKey idx s := by
      by_cases hmd : endsWithMd g.name = true
      · rw [if_pos hmd]
        unfold indexFileWith
        cases hgm : gm g.raw with
        | error e => rfl
        | ok d =>
          have hok : parsesOk gm g.raw = true := by
            unfold parsesOk
            rw [hgm]
          exact jsGetKey_setKey_ne idx _ s _ fun hh => hg hok hh.symm
      · rw [if_neg hmd]
    exact
      (ih
          (if endsWithMd g.name then
            indexFileWith gm js idx (dp ++ "/" ++ g.name) g.raw dt now
          else idx)
          s hgs).trans
        step

/-- A successfully parsed `.md` file, with no later file of the same slug in
its own directory, is present in the scan result with exactly the record
`_indexFile` builds for it. -/
theorem scan_found (gm : String → Except String ParsedDoc) (js : JsPrims)
    (dp dt : String) (now : Int) (pre post : List MdFile) (idx : ContentIndex)
    (f : MdFile) (d : ParsedDoc) (hok : gm f.raw = Except.ok d)
    (hmd : endsWithMd f.name = true)
    (hpost : ∀ g ∈ post, scanSlug dp g ≠ scanSlug dp f) :
    jsGetKey (scanDirectory gm js dp dt now idx (pre ++ f :: post)) (scanSlug dp f)
      = some (mkItem js d (dp ++ "/" ++ f.name) dt now) := by
  have hsplit :
      scanDirectory gm js dp dt now idx (pre ++ f :: post) =
        scanDirectory gm js dp dt now
          (scanDirectory gm js dp dt now idx pre) (f :: post) := by
    unfold scanDirectory
    rw [List.foldl_append]
  rw [hsplit]
  have h3 :
      scanDirectory gm js dp dt now
          (scanDirectory gm js dp dt now idx pre) (f :: post) =
        scanDirectory gm js dp dt now
          (jsSetKey (scanDirectory gm js dp dt now idx pre)
            (mkItem js d (dp ++ "/" ++ f.name) dt now).slug
            (mkItem js d (dp ++ "/" ++ f.name) dt now)) post := by
    show scanDirectory gm js dp dt now
        (if endsWithMd f.name then
          indexFileWith gm js (scanDirectory gm js dp dt now idx pre)
            (dp ++ "/" ++ f.name) f.raw dt now
        else scanDirectory gm js dp dt now idx pre) post = _
    rw [if_pos hmd]
    unfold indexFileWith
    rw [hok]
  rw [h3]
  have h2 := scan_untouched gm js dp dt now post
    (jsSetKey (scanDirectory gm js dp dt now idx pre)
      (mkItem js d (dp ++ "/" ++ f.name) dt now).slug
      (mkItem js d (dp ++ "/" ++ f.name) dt now))
    (scanSlug dp f) fun g hg _ => hpost g hg
  rw [h2]
  exact jsGetKey_setKey_self _ _ _

/-! ## Shared concrete records and helper lemmas for the claims -/

/-- A concrete content record for witnesses and counterexamples. -/
def sampleItem (slug : String) (type : String) (order date : Int)
    (published : Bool) (fp : String) : ContentItem :=
  { slug := slug
    type := .str type
    title := .str slug
    date := date
    order := order
    published := published
    filePath := fp
    metadata := [] }

/-- Trivial instantiation of the external JS primitives. -/
def js0 : JsPrims := ⟨fun _ => 0, fun _ => 0, fun _ => ""⟩

theorem hasIndexEffect_append (l1 l2 : List Effect) :
    hasIndexEffect (l1 ++ l2) = (hasIndexEffect l1 || hasIndexEffect l2) := by
  unfold hasIndexEffect
  exact List.any_append

theorem hasIndexEffect_reorder_writes (items : List (Bool × Bool × String)) :
    hasIndexEffect
      (items.filterMap fun it =>
        if it.1 && it.2.1 then some (Effect.writeFile it.2.2) else none) = false := by
  induction items with
  | nil => rfl
  | cons it rest ih =>
    rw [List.filterMap_cons]
    by_cases h : (it.1 && it.2.1) = true
    · rw [if_pos h]
      simp only [hasIndexEffect, List.any_cons] at ih ⊢
      simp [ih]
    · rw [if_neg h]
      exact ih

/-- Helper: `removeFromIndex` always clears the slug derived from the path. -/
theorem removeFromIndex_get_self (idx : ContentIndex) (p : String) :
    getBySlug (removeFromIndex idx p) (generateSlug (basenameNoMd p)) = none := by
  unfold removeFromIndex getBySlug
  by_cases h : jsHasKey idx (generateSlug (basenameNoMd p)) = true
  · rw [if_pos h]
    exact jsGetKey_delKey_self idx _
  · rw [if_neg h]
    rw [jsHasKey_eq_isSome] at h
    cases hg : jsGetKey idx (generateSlug (basenameNoMd p)) with
    | none => rfl
    | some it => rw [hg] at h; exact absurd rfl h

/-- Helper: `removeFromIndex` leaves every other slug unchanged. -/
theorem removeFromIndex_get_ne (idx : ContentIndex) (p s : String)
    (h : s ≠ generateSlug (basenameNoMd p)) :
    getBySlug (removeFromIndex idx p) s = getBySlug idx s := by
  unfold removeFromIndex getBySlug
  by_cases hh : jsHasKey idx (generateSlug (basenameNoMd p)) = true
  · rw [if_pos hh]
    exact jsGetKey_delKey_ne idx _ s h
  · rw [if_neg hh]

/-- Helper: `removeFromIndex` is the identity when the slug is absent. -/
theorem removeFromIndex_absent (idx : ContentIndex) (p : String)
    (h : getBySlug idx (generateSlug (basenameNoMd p)) = none) :
    removeFromIndex idx p = idx := by
  unfold removeFromIndex
  rw [if_neg]
  rw [jsHasKey_eq_isSome]
  unfold getBySlug at h
  rw [h]
  simp

/-! ## C1 -/

/-- C1 counterexample: on the success path of each admin handler the trace
contains the file operation and a response but no direct index call — the
claimed synchronous `upsert`/`remove` before responding does not happen. -/
theorem admin_no_direct_index_counterexample :
    hasIndexEffect (adminCreatePostTrace true true false true "/content/blog/a.md") = false ∧
    Effect.writeFile "/content/blog/a.md" ∈
      adminCreatePostTrace true true false true "/content/blog/a.md" ∧
    hasIndexEffect (adminEditPostTrace true true true true "/content/blog/a.md") = false ∧
    hasIndexEffect (adminDeleteTrace true true "/content/blog/a.md") = false ∧
    Effect.unlinkFile "/content/blog/a.md" ∈
      adminDeleteTrace true true "/content/blog/a.md" ∧
    hasIndexEffect (adminReorderTrace [(true, true, "/content/blog/a.md")]) = false := by
  refine ⟨rfl, ?_, rfl, rfl, ?_, rfl⟩
  · exact List.mem_cons_self _ _
  · exact List.mem_cons_self _ _

/-- C1 (amended): every admin mutation handler performs its file write or
unlink and then responds, making no direct content-index call on any path —
index maintenance is left entirely to the file watcher. -/
theorem admin_mutations_rely_on_watcher :
    ∀ (b1 b2 b3 b4 : Bool) (p : String) (items : List (Bool × Bool × String)),
      hasIndexEffect (adminCreatePostTrace b1 b2 b3 b4 p) = false ∧
      hasIndexEffect (adminEditPostTrace b1 b2 b3 b4 p) = false ∧
      hasIndexEffect (adminDeleteTrace b1 b2 p) = false ∧
      hasIndexEffect (adminReorderTrace items) = false ∧
      adminCreatePostTrace true true false true p = [.writeFile p, .respond] ∧
      adminEditPostTrace true true true true p = [.writeFile p, .respond] ∧
      adminDeleteTrace true true p = [.unlinkFile p, .respond] := by
  intro b1 b2 b3 b4 p items
  refine ⟨?_, ?_, ?_, ?_, rfl, rfl, rfl⟩
  · cases b1 <;> cases b2 <;> cases b3 <;> cases b4 <;> rfl
  · cases b1 <;> cases b2 <;> cases b3 <;> cases b4 <;> rfl
  · cases b1 <;> cases b2 <;> rfl
  · unfold adminReorderTrace
    rw [hasIndexEffect_append, hasIndexEffect_reorder_writes]
    rfl

/-! ## C2 -/

/-- C2 counterexample: a record indexed from the blog path `a-post.md` is
removed by `removeFromIndex` called with a pages path whose filename yields
the same slug, although the record's `filePath` is different — removal is not
delete-by-path. -/
theorem remove_cross_path_counterexample :
    (sampleItem "a-post" "blog" 0 0 true "/content/blog/a-post.md").filePath ≠
      "/content/pages/A POST.md" ∧
    getBySlug
      (removeFromIndex
        [("a-post", sampleItem "a-post" "blog" 0 0 true "/content/blog/a-post.md")]
        "/content/pages/A POST.md")
      "a-post" = none := by
  constructor
  · decide
  · decide

/-- C2 (amended): removal is delete-by-slug: `removeFromIndex p` always clears
the entry under the slug derived from `p`'s filename — regardless of that
record's own `sourcePath` — and leaves every other slug unchanged. -/
theorem remove_deletes_by_slug :
    ∀ (idx : ContentIndex) (p : String),
      getBySlug (removeFromIndex idx p) (generateSlug (basenameNoMd p)) = none ∧
      ∀ s, s ≠ generateSlug (basenameNoMd p) →
        getBySlug (removeFromIndex idx p) s = getBySlug idx s :=
  fun idx p => ⟨removeFromIndex_get_self idx p, fun s hs => removeFromIndex_get_ne idx p s hs⟩

/-- C2 witness: the amended claim evaluated at a one-record index. -/
theorem remove_deletes_by_slug_witness :
    getBySlug
        (removeFromIndex
          [("a-post", sampleItem "a-post" "blog" 0 0 true "/content/blog/a-post.md")]
          "/content/blog/a-post.md") "other" =
      getBySlug
        [("a-post", sampleItem "a-post" "blog" 0 0 true "/content/blog/a-post.md")]
        "other" :=
  (remove_deletes_by_slug
    [("a-post", sampleItem "a-post" "blog" 0 0 true "/content/blog/a-post.md")]
    "/content/blog/a-post.md").2 "other" (by decide)

/-! ## C3 -/

/-- C3 counterexample: the slug generator is not idempotent on every input —
a filename carrying two stacked date prefixes loses one prefix per pass, so
the second pass changes the first pass's output. -/
theorem slug_not_idempotent_counterexample :
    generateSlug (generateSlug "2020-01-01-2021-02-03-x") ≠
      generateSlug "2020-01-01-2021-02-03-x" := by decide

/-- C3 (amended): the slug generator strips one leading date prefix,
lowercases, collapses non-alphanumeric runs to single hyphens and trims edge
hyphens; it is idempotent on every input whose slug does not itself begin
with a date prefix, and maps `2025-11-13-My Post!` to `my-post`. -/
theorem slug_conditionally_idempotent :
    (∀ s : String, hasDatePrefix (generateSlug s).data = false →
      generateSlug (generateSlug s) = generateSlug s) ∧
    generateSlug "2025-11-13-My Post!" = "my-post" := by
  constructor
  · intro s h
    have hidem := slugChars_idem s.data h
    show (⟨slugChars (slugChars s.data)⟩ : String) = ⟨slugChars s.data⟩
    rw [hidem]
  · decide

/-- C3 witness: conditional idempotence evaluated at `"Hello World"`. -/
theorem slug_conditionally_idempotent_witness :
    hasDatePrefix (generateSlug "Hello World").data = false ∧
    generateSlug (generateSlug "Hello World") = generateSlug "Hello World" :=
  ⟨by decide, slug_conditionally_idempotent.1 "Hello World" (by decide)⟩

/-! ## C8 -/

/-- C8 (confirmed): `removeFromIndex` is total (the try/catch makes it a plain
function), idempotent, a no-op when the derived slug is absent, and leaves
every entry other than that slug unchanged. -/
theorem remove_idempotent_total :
    ∀ (idx : ContentIndex) (p : String),
      removeFromIndex (removeFromIndex idx p) p = removeFromIndex idx p ∧
      (getBySlug idx (generateSlug (basenameNoMd p)) = none →
        removeFromIndex idx p = idx) ∧
      ∀ s, s ≠ generateSlug (basenameNoMd p) →
        getBySlug (removeFromIndex idx p) s = getBySlug idx s := by
  intro idx p
  refine ⟨?_, fun h => removeFromIndex_absent idx p h,
    fun s hs => removeFromIndex_get_ne idx p s hs⟩
  exact removeFromIndex_absent (removeFromIndex idx p) p (removeFromIndex_get_self idx p)

/-- C8 witness: the double remove evaluated on a two-record index using a path
whose slug matches one record. -/
theorem remove_idempotent_total_witness :
    removeFromIndex
        (removeFromIndex
          [("a", sampleItem "a" "blog" 0 0 true "/content/blog/a.md"),
           ("b", sampleItem "b" "page" 0 0 true "/content/pages/b.md")]
          "/content/blog/a.md")
        "/content/blog/a.md" =
      removeFromIndex
        [("a", sampleItem "a" "blog" 0 0 true "/content/blog/a.md"),
         ("b", sampleItem "b" "page" 0 0 true "/content/pages/b.md")]
        "/content/blog/a.md" ∧
    getBySlug
        (removeFromIndex
          [("a", sampleItem "a" "blog" 0 0 true "/content/blog/a.md"),
           ("b", sampleItem "b" "page" 0 0 true "/content/pages/b.md")]
          "/content/blog/a.md") "b" =
      getBySlug
        [("a", sampleItem "a" "blog" 0 0 true "/content/blog/a.md"),
         ("b", sampleItem "b" "page" 0 0 true "/content/pages/b.md")] "b" :=
  ⟨(remove_idempotent_total
      [("a", sampleItem "a" "blog" 0 0 true "/content/blog/a.md"),
       ("b", sampleItem "b" "page" 0 0 true "/content/pages/b.md")]
      "/content/blog/a.md").1,
   (remove_idempotent_total
      [("a", sampleItem "a" "blog" 0 0 true "/content/blog/a.md"),
       ("b", sampleItem "b" "page" 0 0 true "/content/pages/b.md")]
      "/content/blog/a.md").2.2 "b" (by decide)⟩

/-! ## C4 -/

/-- The index for the sort example: orders `[3, 1, 1]`, the two order-1
entries dated 10 and 20. -/
def sortExampleIdx : ContentIndex :=
  [("p1", sampleItem "p1" "blog" 3 0 true "/content/blog/p1.md"),
   ("p2", sampleItem "p2" "blog" 1 10 true "/content/blog/p2.md"),
   ("p3", sampleItem "p3" "blog" 1 20 true "/content/blog/p3.md")]

/-- C4 (confirmed): `getBlogEntries` and `getPages` return exactly the
published records of their kind (a permutation of the corresponding filter of
the index values), sorted ascending by `order` with ties broken by `date`
descending; the `[3, 1, 1]` example sorts to `[p3, p2, p1]` — the order-1
entries first, newer date before older, then the order-3 entry. -/
theorem entries_sorted_published :
    (∀ idx : ContentIndex,
      (getBlogEntries idx).Perm
        ((indexValues idx).filter fun item =>
          decide (item.type = .str "blog") && item.published) ∧
      List.Sorted entryLE (getBlogEntries idx) ∧
      (getPages idx).Perm
        ((indexValues idx).filter fun item =>
          decide (item.type = .str "page") && item.published) ∧
      List.Sorted entryLE (getPages idx)) ∧
    getBlogEntries sortExampleIdx =
      [sampleItem "p3" "blog" 1 20 true "/content/blog/p3.md",
       sampleItem "p2" "blog" 1 10 true "/content/blog/p2.md",
       sampleItem "p1" "blog" 3 0 true "/content/blog/p1.md"] := by
  constructor
  · intro idx
    exact ⟨List.perm_insertionSort entryLE _, List.sorted_insertionSort entryLE _,
      List.perm_insertionSort entryLE _, List.sorted_insertionSort entryLE _⟩
  · decide

/-! ## C9 -/

/-- C9 (confirmed): a record in the index with `published = false` appears in
neither `getBlogEntries` nor `getPages`, yet `getBySlug` still returns it —
the lookup never filters on the published flag. -/
theorem unpublished_hidden_but_retrievable :
    ∀ (idx : ContentIndex) (s : String) (item : ContentItem),
      jsGetKey idx s = some item → item.published = false →
      item ∉ getBlogEntries idx ∧ item ∉ getPages idx ∧
      getBySlug idx s = some item := by
  intro idx s item hget hpub
  refine ⟨?_, ?_, hget⟩
  · intro hmem
    unfold getBlogEntries at hmem
    rw [List.mem_insertionSort] at hmem
    have hp := (List.mem_filter.mp hmem).2
    rw [hpub] at hp
    simp at hp
  · intro hmem
    unfold getPages at hmem
    rw [List.mem_insertionSort] at hmem
    have hp := (List.mem_filter.mp hmem).2
    rw [hpub] at hp
    simp at hp

/-- C9 witness: an unpublished blog record in a one-record index. -/
theorem unpublished_hidden_but_retrievable_witness :
    sampleItem "u" "blog" 0 0 false "/content/blog/u.md" ∉
      getBlogEntries [("u", sampleItem "u" "blog" 0 0 false "/content/blog/u.md")] ∧
    sampleItem "u" "blog" 0 0 false "/content/blog/u.md" ∉
      getPages [("u", sampleItem "u" "blog" 0 0 false "/content/blog/u.md")] ∧
    getBySlug [("u", sampleItem "u" "blog" 0 0 false "/content/blog/u.md")] "u" =
      some (sampleItem "u" "blog" 0 0 false "/content/blog/u.md") :=
  unpublished_hidden_but_retrievable
    [("u", sampleItem "u" "blog" 0 0 false "/content/blog/u.md")] "u"
    (sampleItem "u" "blog" 0 0 false "/content/blog/u.md") (by decide) (by decide)

/-! ## C10 -/

/-- The parsed document whose front-matter `type` is the empty string. -/
def emptyTypeDoc : ParsedDoc :=
  ⟨[("type", .str ""), ("title", .str "T")], "body"⟩

/-- C10 counterexample: the empty string is a value other than `blog`/`page`,
yet the record is stored with the directory fallback type `blog` — not with
the front-matter string unchanged — and it does appear in `getBlogEntries`. -/
theorem empty_type_falls_back_counterexample :
    (mkItem js0 emptyTypeDoc "/content/blog/x.md" "blog" 0).type = .str "blog" ∧
    (mkItem js0 emptyTypeDoc "/content/blog/x.md" "blog" 0).type ≠ .str "" ∧
    (mkItem js0 emptyTypeDoc "/content/blog/x.md" "blog" 0) ∈
      getBlogEntries
        (jsSetKey [] (mkItem js0 emptyTypeDoc "/content/blog/x.md" "blog" 0).slug
          (mkItem js0 emptyTypeDoc "/content/blog/x.md" "blog" 0)) := by
  refine ⟨by decide, by decide, ?_⟩
  decide

/-- C10 (amended): when the front-matter `type` is a non-empty string other
than exactly `blog` or `page`, the record keeps that string as its type, is
excluded from both query methods, still occupies its slug, and is returned by
`getBySlug`. -/
theorem unknown_type_excluded_when_truthy :
    ∀ (js : JsPrims) (d : ParsedDoc) (fp dt : String) (now : Int) (t : String)
      (idx : ContentIndex),
      jsGetKey d.metadata "type" = some (.str t) → t ≠ "" → t ≠ "blog" →
      t ≠ "page" →
      (mkItem js d fp dt now).type = .str t ∧
      mkItem js d fp dt now ∉
        getBlogEntries (jsSetKey idx (mkItem js d fp dt now).slug (mkItem js d fp dt now)) ∧
      mkItem js d fp dt now ∉
        getPages (jsSetKey idx (mkItem js d fp dt now).slug (mkItem js d fp dt now)) ∧
      getBySlug (jsSetKey idx (mkItem js d fp dt now).slug (mkItem js d fp dt now))
          (mkItem js d fp dt now).slug = some (mkItem js d fp dt now) := by
  intro js d fp dt now t idx hget hne hblog hpage
  have htype : (mkItem js d fp dt now).type = .str t := by
    show contentTypeOf d.metadata dt = .str t
    unfold contentTypeOf
    rw [hget]
    have hT : jsTruthy (.str t) = true := decide_eq_true hne
    have hred :
        (if jsTruthy (MetaValue.str t) = true then MetaValue.str t
         else if dt = "" then MetaValue.str "page" else MetaValue.str dt) =
          MetaValue.str t := if_pos hT
    exact hred
  refine ⟨htype, ?_, ?_, jsGetKey_setKey_self idx _ _⟩
  · intro hmem
    unfold getBlogEntries at hmem
    rw [List.mem_insertionSort] at hmem
    have hp := (List.mem_filter.mp hmem).2
    rw [Bool.and_eq_true, decide_eq_true_eq, htype] at hp
    exact hblog (MetaValue.str.inj hp.1)
  · intro hmem
    unfold getPages at hmem
    rw [List.mem_insertionSort] at hmem
    have hp := (List.mem_filter.mp hmem).2
    rw [Bool.and_eq_true, decide_eq_true_eq, htype] at hp
    exact hpage (MetaValue.str.inj hp.1)

/-- C10 witness: the amended claim evaluated at a record whose front-matter
type is `Blog` (capitalised). -/
theorem unknown_type_excluded_when_truthy_witness :
    (mkItem js0 ⟨[("type", .str "Blog")], "b"⟩ "/content/blog/y.md" "blog" 0).type =
      .str "Blog" ∧
    mkItem js0 ⟨[("type", .str "Blog")], "b"⟩ "/content/blog/y.md" "blog" 0 ∉
      getBlogEntries
        (jsSetKey []
          (mkItem js0 ⟨[("type", .str "Blog")], "b"⟩ "/content/blog/y.md" "blog" 0).slug
          (mkItem js0 ⟨[("type", .str "Blog")], "b"⟩ "/content/blog/y.md" "blog" 0)) ∧
    mkItem js0 ⟨[("type", .str "Blog")], "b"⟩ "/content/blog/y.md" "blog" 0 ∉
      getPages
        (jsSetKey []
          (mkItem js0 ⟨[("type", .str "Blog")], "b"⟩ "/content/blog/y.md" "blog" 0).slug
          (mkItem js0 ⟨[("type", .str "Blog")], "b"⟩ "/content/blog/y.md" "blog" 0)) ∧
    getBySlug
        (jsSetKey []
          (mkItem js0 ⟨[("type", .str "Blog")], "b"⟩ "/content/blog/y.md" "blog" 0).slug
          (mkItem js0 ⟨[("type", .str "Blog")], "b"⟩ "/content/blog/y.md" "blog" 0))
        (mkItem js0 ⟨[("type", .str "Blog")], "b"⟩ "/content/blog/y.md" "blog" 0).slug =
      some (mkItem js0 ⟨[("type", .str "Blog")], "b"⟩ "/content/blog/y.md" "blog" 0) :=
  unknown_type_excluded_when_truthy js0 ⟨[("type", .str "Blog")], "b"⟩
    "/content/blog/y.md" "blog" 0 "Blog" [] (by decide) (by decide) (by decide)
    (by decide)

/-! ## C6 -/

/-- The parsed document whose front-matter date is the number 0 — present and
a perfectly valid `new Date(0)` argument, but falsy. -/
def dateZeroDoc : ParsedDoc :=
  ⟨[("title", .str "T"), ("date", .num 0)], "body"⟩

/-- C6 counterexample: with front-matter `date: 0` — present and parseable,
`new Date(0)` being the epoch — the indexed record's date is the observation
time 999, not the front-matter date: the code branches on JS truthiness, not
on presence-and-parseability. -/
theorem published_date_falsy_counterexample :
    (mkItem js0 dateZeroDoc "/content/blog/t.md" "blog" 999).date = 999 ∧
    jsDateVal js0 (.num 0) = 0 ∧
    (mkItem js0 dateZeroDoc "/content/blog/t.md" "blog" 999).date ≠
      jsDateVal js0 (.num 0) := by
  refine ⟨by decide, by decide, by decide⟩

/-- C6 (amended): the record's `date` is `new Date(value)` exactly when the
front-matter `date` value is present and truthy; when the field is absent or
falsy it is the file-observation time. -/
theorem published_date_truthiness :
    ∀ (js : JsPrims) (d : ParsedDoc) (fp dt : String) (now : Int),
      (∀ v, jsGetKey d.metadata "date" = some v → jsTruthy v = true →
        (mkItem js d fp dt now).date = jsDateVal js v) ∧
      (∀ v, jsGetKey d.metadata "date" = some v → jsTruthy v = false →
        (mkItem js d fp dt now).date = now) ∧
      (jsGetKey d.metadata "date" = none → (mkItem js d fp dt now).date = now) := by
  intro js d fp dt now
  refine ⟨?_, ?_, ?_⟩
  · intro v hv htr
    show (match jsGetKey d.metadata "date" with
      | some v => if jsTruthy v then jsDateVal js v else now
      | none => now) = jsDateVal js v
    rw [hv]
    exact if_pos htr
  · intro v hv htr
    show (match jsGetKey d.metadata "date" with
      | some v => if jsTruthy v then jsDateVal js v else now
      | none => now) = now
    rw [hv]
    exact if_neg (by rw [htr]; exact Bool.false_ne_true)
  · intro hv
    show (match jsGetKey d.metadata "date" with
      | some v => if jsTruthy v then jsDateVal js v else now
      | none => now) = now
    rw [hv]

/-- C6 witness: the three branches evaluated at concrete front matter. -/
theorem published_date_truthiness_witness :
    (mkItem js0 ⟨[("date", .date 5)], ""⟩ "/content/blog/x.md" "blog" 7).date =
      jsDateVal js0 (.date 5) ∧
    (mkItem js0 ⟨[("date", .num 0)], ""⟩ "/content/blog/x.md" "blog" 7).date = 7 ∧
    (mkItem js0 ⟨[], ""⟩ "/content/blog/x.md" "blog" 7).date = 7 :=
  ⟨(published_date_truthiness js0 ⟨[("date", .date 5)], ""⟩ "/content/blog/x.md"
      "blog" 7).1 (.date 5) (by decide) (by decide),
   (published_date_truthiness js0 ⟨[("date", .num 0)], ""⟩ "/content/blog/x.md"
      "blog" 7).2.1 (.num 0) (by decide) (by decide),
   (published_date_truthiness js0 ⟨[], ""⟩ "/content/blog/x.md"
      "blog" 7).2.2 (by decide)⟩

/-! ## C7 -/

/-- C7 (confirmed): the reorder rewrite sets exactly the `order` key — every
other front-matter key keeps its value, and its line in the rebuilt front
matter is rendered from that unchanged value by the escape/date-only rules. -/
theorem reorder_preserves_other_fields :
    ∀ (js : JsPrims) (m : Metadata) (o : Int),
      jsGetKey (jsSetKey m "order" (.num o)) "order" = some (.num o) ∧
      (∀ k, k ≠ "order" → jsGetKey (jsSetKey m "order" (.num o)) k = jsGetKey m k) ∧
      (∀ k v, k ≠ "order" → jsGetKey m k = some v →
        renderLine js (k, v) ∈ reorderFrontMatterLines js m o) := by
  intro js m o
  refine ⟨jsGetKey_setKey_self m "order" (.num o),
    fun k hk => jsGetKey_setKey_ne m "order" k (.num o) hk, ?_⟩
  intro k v hk hv
  have hmem : (k, v) ∈ jsSetKey m "order" (.num o) := by
    apply jsGetKey_mem
    rw [jsGetKey_setKey_ne m "order" k (.num o) hk]
    exact hv
  unfold reorderFrontMatterLines
  exact List.mem_append.mpr (Or.inl (List.mem_append.mpr
    (Or.inr (List.mem_map_of_mem (renderLine js) hmem))))

/-- C7 witness: a metadata block with a quoted title, a date and an existing
order, reordered to 2. -/
theorem reorder_preserves_other_fields_witness :
    jsGetKey
        (jsSetKey [("title", MetaValue.str "A \"q\""), ("date", MetaValue.date 5),
          ("order", MetaValue.num 1)] "order" (.num 2)) "order" =
      some (.num 2) ∧
    jsGetKey
        (jsSetKey [("title", MetaValue.str "A \"q\""), ("date", MetaValue.date 5),
          ("order", MetaValue.num 1)] "order" (.num 2)) "title" =
      jsGetKey [("title", MetaValue.str "A \"q\""), ("date", MetaValue.date 5),
        ("order", MetaValue.num 1)] "title" ∧
    renderLine js0 ("title", MetaValue.str "A \"q\"") ∈
      reorderFrontMatterLines js0
        [("title", MetaValue.str "A \"q\""), ("date", MetaValue.date 5),
          ("order", MetaValue.num 1)] 2 :=
  ⟨(reorder_preserves_other_fields js0
      [("title", MetaValue.str "A \"q\""), ("date", MetaValue.date 5),
        ("order", MetaValue.num 1)] 2).1,
   (reorder_preserves_other_fields js0
      [("title", MetaValue.str "A \"q\""), ("date", MetaValue.date 5),
        ("order", MetaValue.num 1)] 2).2.1 "title" (by decide),
   (reorder_preserves_other_fields js0
      [("title", MetaValue.str "A \"q\""), ("date", MetaValue.date 5),
        ("order", MetaValue.num 1)] 2).2.2 "title" (MetaValue.str "A \"q\"")
      (by decide) (by decide)⟩

/-! ## C5 -/

/-- C5 (confirmed): scanning a blog directory that contains one unparseable
file indexes every other successfully-parsed `.md` file with exactly the
record `_indexFile` builds for it, and the unparseable file contributes no
entry; the per-file try/catch makes the whole scan total, so no parse failure
aborts it. -/
theorem initialize_skips_unparseable :
    ∀ (gm : String → Except String ParsedDoc) (js : JsPrims) (cp : String)
      (now : Int) (msg : String) (pre post pagesFiles : List MdFile)
      (bad f : MdFile) (d : ParsedDoc),
      gm bad.raw = Except.error msg →
      bad ∈ pre ++ post →
      gm f.raw = Except.ok d →
      endsWithMd f.name = true →
      (∀ g ∈ post, scanSlug (cp ++ "/blog") g ≠ scanSlug (cp ++ "/blog") f) →
      (∀ g ∈ pagesFiles, parsesOk gm g.raw = true →
        scanSlug (cp ++ "/pages") g ≠ scanSlug (cp ++ "/blog") f) →
      (∀ g ∈ pre ++ f :: post, parsesOk gm g.raw = true →
        scanSlug (cp ++ "/blog") g ≠ scanSlug (cp ++ "/blog") bad) →
      (∀ g ∈ pagesFiles, parsesOk gm g.raw = true →
        scanSlug (cp ++ "/pages") g ≠ scanSlug (cp ++ "/blog") bad) →
      getBySlug (initializeIndex gm js cp now (pre ++ f :: post) pagesFiles)
          (scanSlug (cp ++ "/blog") f) =
        some (mkItem js d (cp ++ "/blog" ++ "/" ++ f.name) "blog" now) ∧
      getBySlug (initializeIndex gm js cp now (pre ++ f :: post) pagesFiles)
          (scanSlug (cp ++ "/blog") bad) = none := by
  intro gm js cp now msg pre post pagesFiles bad f d hbad hbadmem hok hmd hpost
    hpages hblogbad hpagesbad
  constructor
  · unfold initializeIndex getBySlug
    rw [scan_untouched gm js (cp ++ "/pages") "page" now pagesFiles _ _ hpages]
    exact scan_found gm js (cp ++ "/blog") "blog" now pre post [] f d hok hmd hpost
  · unfold initializeIndex getBySlug
    rw [scan_untouched gm js (cp ++ "/pages") "page" now pagesFiles _ _ hpagesbad]
    rw [scan_untouched gm js (cp ++ "/blog") "blog" now (pre ++ f :: post) _ _
      hblogbad]
    rfl

/-- A concrete gray-matter stand-in: rejects the text `BAD`, accepts all else. -/
def gm0 : String → Except String ParsedDoc := fun r =>
  if r = "BAD" then .error "boom" else .ok ⟨[("title", .str "T")], r⟩

/-- C5 witness: a blog directory of two files where the first fails to parse;
the second is indexed, the first's slug is absent. -/
theorem initialize_skips_unparseable_witness :
    getBySlug
        (initializeIndex gm0 js0 "/c" 0
          [⟨"broken.md", "BAD"⟩, ⟨"good.md", "G"⟩] [⟨"about.md", "P"⟩])
        (scanSlug ("/c" ++ "/blog") ⟨"good.md", "G"⟩) =
      some (mkItem js0 ⟨[("title", .str "T")], "G"⟩
        ("/c" ++ "/blog" ++ "/" ++ "good.md") "blog" 0) ∧
    getBySlug
        (initializeIndex gm0 js0 "/c" 0
          [⟨"broken.md", "BAD"⟩, ⟨"good.md", "G"⟩] [⟨"about.md", "P"⟩])
        (scanSlug ("/c" ++ "/blog") ⟨"broken.md", "BAD"⟩) = none :=
  initialize_skips_unparseable gm0 js0 "/c" 0 "boom" [⟨"broken.md", "BAD"⟩] []
    [⟨"about.md", "P"⟩] ⟨"broken.md", "BAD"⟩ ⟨"good.md", "G"⟩
    ⟨[("title", .str "T")], "G"⟩ rfl (by decide) rfl (by decide) (by decide)
    (by decide) (by decide) (by decide)
